import Mathlib

/-!
Shallow embedding of `src/immich_updater.py`, a single top-level script that
compares the currently installed Immich server version with the latest GitHub
release and decides whether to run `docker compose pull` / `docker compose up -d`.

Modelling conventions:
* Strings are `List Char`; Python's `str.splitlines` is modelled including its
  multi-character `"\r\n"` boundary and its full set of line-break characters.
* UTC instants are integer seconds since an epoch; Python's
  `(now - release_DT).days` on a `timedelta` is floor division of the signed
  second difference by 86400, modelled with `Int.fdiv`.
* The result of `datetime.fromisoformat` on the `published_at` field is
  modelled as `Option Int`: `none` stands for an invalid timestamp string
  (the call raises), `some t` for a successfully parsed instant.
* The script's early `sys.exit` at each check is modelled by the pure
  function `decide` returning the first matching verdict, and the
  post-decision `docker` calls by an event trace.
-/

namespace ImmichUpdater

/-- A structured version triple, as obtained from the Immich server API
(`major`/`minor`/`patch` JSON fields) or from a parsed release tag. -/
structure SemVersion where
  major : Nat
  minor : Nat
  patch : Nat
deriving DecidableEq, Repr

/-- The five possible outcomes of one run of the decision logic
(lines 88-144 of the script): each skip corresponds to one of the script's
early `sys.exit(0)` calls, `Proceed` to falling through to the update. -/
inductive Verdict where
  | Proceed
  | SkipMajorChange
  | SkipNoChange
  | SkipBreakingChange
  | SkipDelayNotElapsed
deriving DecidableEq, Repr

/-- Failure modes of the pure decision pipeline: a version string that does
not parse (`int()` raising / missing components) and an unparsable
`published_at` timestamp (`datetime.fromisoformat` raising). -/
inductive Err where
  | ParseError
  | TimeParseError
deriving DecidableEq, Repr

/-! ### Text utilities: `str.splitlines` and case-insensitive search -/

/-- The line-boundary characters recognised by Python's `str.splitlines`:
`\n`, `\r`, `\v` (11), `\f` (12), FS (28), GS (29), RS (30), NEL (133),
LINE SEPARATOR (8232), PARAGRAPH SEPARATOR (8233). -/
def isLineBreak (c : Char) : Bool :=
  c = '\n' || c = '\r' || c = Char.ofNat 11 || c = Char.ofNat 12 ||
  c = Char.ofNat 28 || c = Char.ofNat 29 || c = Char.ofNat 30 ||
  c = Char.ofNat 133 || c = Char.ofNat 8232 || c = Char.ofNat 8233

/-- Python's `str.splitlines`: split at every line boundary, with `"\r\n"`
counting as a single boundary; `""` gives no lines and a trailing boundary
does not create a final empty line. -/
def splitlines : List Char → List (List Char)
  | [] => []
  | c :: cs =>
    if isLineBreak c then
      [] :: (if c = '\r' then
               match cs with
               | d :: cs2 => if d = '\n' then splitlines cs2 else splitlines (d :: cs2)
               | [] => []
             else splitlines cs)
    else
      match splitlines cs with
      | [] => [[c]]
      | l :: ls => (c :: l) :: ls

/-- `isPre m s`: the character list `m` is an initial segment of `s`. -/
def isPre : List Char → List Char → Bool
  | [], _ => true
  | _ :: _, [] => false
  | a :: m, b :: s => a = b && isPre m s

/-- `hasSubstr m s`: `m` occurs contiguously somewhere in `s` (the substring
search performed by `re.search` with a literal pattern). -/
def hasSubstr (m : List Char) : List Char → Bool
  | [] => isPre m []
  | b :: s => isPre m (b :: s) || hasSubstr m s

/-- ASCII lowercasing of a character list; `re.IGNORECASE` matching of a
literal pattern is substring search after lowercasing both sides. -/
def lower (s : List Char) : List Char := s.map Char.toLower

/-- The literal pattern of line 114: `re.search('breaking change', line,
re.IGNORECASE)`. -/
def marker : List Char :=
  ['b', 'r', 'e', 'a', 'k', 'i', 'n', 'g', ' ', 'c', 'h', 'a', 'n', 'g', 'e']

/-- Line 114: the line matches the case-insensitive pattern `breaking change`. -/
def lineHasMarker (line : List Char) : Bool := hasSubstr marker (lower line)

/-- Lines 112-114: when release notes are present, scan them line by line
(`release_data['body'].splitlines()`) for the marker; absent notes scan as
`false` (the script prints "No release notes found" and continues). -/
def notesHaveBreaking (notes : Option (List Char)) : Bool :=
  match notes with
  | none => false
  | some body => (splitlines body).any lineHasMarker

/-- Whole-text variant of the scan, following the spec's words in section 4.2
("functionally equivalent to whole-text search"); compared with the
line-by-line scan in the refinement theorem for C8. -/
def wholeTextHasMarker (s : List Char) : Bool := hasSubstr marker (lower s)

/-! ### The decision pipeline -/

/-- Line 135: `(datetime.now(timezone.utc) - release_DT).days`, the floor
whole-day difference of two UTC instants given in seconds. -/
def daysSince (now pub : Int) : Int := Int.fdiv (now - pub) 86400

/-- Lines 131-140: parse `published_at` (an unparsable timestamp raises,
modelled as `Err.TimeParseError`), then defer when fewer than `delayDays`
whole days have elapsed since publication. -/
def delayStep (publishedAt : Option Int) (now delayDays : Int) :
    Except Err Verdict :=
  match publishedAt with
  | none => .error .TimeParseError
  | some pub =>
    if daysSince now pub < delayDays then .ok .SkipDelayNotElapsed
    else .ok .Proceed

/-- Lines 88-144, the update-eligibility decision engine: major-version
check (line 90), no-change check (lines 99-100), breaking-change scan of the
release notes only when the minor version changed (lines 110-122), then the
delay check (lines 131-140); the first matching rule wins. -/
def decide (curr latest : SemVersion) (notes : Option (List Char))
    (publishedAt : Option Int) (now delayDays : Int) : Except Err Verdict :=
  if latest.major ≠ curr.major then
    .ok .SkipMajorChange
  else if latest.minor = curr.minor ∧ latest.patch = curr.patch then
    .ok .SkipNoChange
  else if latest.minor ≠ curr.minor ∧ notesHaveBreaking notes = true then
    .ok .SkipBreakingChange
  else
    delayStep publishedAt now delayDays

/-! ### The release-tag parser -/

/-- Line 79: `latest_version_str.lstrip('v')` removes every leading `'v'`
character (and only `'v'`). -/
def lstripV (s : List Char) : List Char := s.dropWhile (fun c => c = 'v')

/-- Python's `str.split('.')`: splitting on every dot, keeping empty pieces
(`"".split('.') == [""]`). -/
def splitDots : List Char → List (List Char)
  | [] => [[]]
  | c :: cs =>
    if c = '.' then [] :: splitDots cs
    else
      match splitDots cs with
      | t :: ts => (c :: t) :: ts
      | [] => [[c]]

/-- Python's `int()` applied to a version component: succeeds exactly on
non-empty all-digit strings (the inputs at play carry no sign, whitespace or
underscores), failing otherwise. -/
def pyInt (s : List Char) : Option Nat :=
  if s ≠ [] ∧ s.all Char.isDigit then
    some (s.foldl (fun n c => 10 * n + (c.toNat - 48)) 0)
  else none

/-- The release-tag parser of the script: `lstrip('v')`, `split('.')`
(line 79) composed with the `int()` conversions of the first three
components applied at the version checks (lines 90, 99, 100, 110); fewer
than three components (an out-of-range index) or a non-numeric component
(`int()` raising) is a parse failure. -/
def parseTag (s : List Char) : Option SemVersion :=
  match splitDots (lstripV s) with
  | p0 :: p1 :: p2 :: _ =>
    match pyInt p0, pyInt p1, pyInt p2 with
    | some a, some b, some c => some ⟨a, b, c⟩
    | _, _, _ => none
  | _ => none

/-- Modelled from the spec's words in section 4.1 only ("strip a single
leading non-digit version-prefix character before splitting on '.'"), for
comparison with the script's `parseTag`: remove exactly one leading
character when it is not a digit, then split and convert as before. -/
def parseTagSpec (s : List Char) : Option SemVersion :=
  let s1 := match s with
    | c :: cs => if c.isDigit then c :: cs else cs
    | [] => []
  match splitDots s1 with
  | p0 :: p1 :: p2 :: _ =>
    match pyInt p0, pyInt p1, pyInt p2 with
    | some a, some b, some c => some ⟨a, b, c⟩
    | _, _, _ => none
  | _ => none

/-! ### The update executor -/

/-- `sh.ErrorReturnCode`: the exit status and captured stderr of a failed
external command. -/
structure ProcError where
  exit_code : Int
  stderr : List Char
deriving DecidableEq, Repr

/-- Observable events of the post-decision part of the script: running
`docker compose pull` (line 153), running `docker compose up -d` (line 161),
the `err` handler reporting a failed command (lines 38-44), logging a
completed update (line 164), and process termination with a status. -/
inductive ExecEvent where
  | ranPull
  | ranUp
  | reportedFailure (code : Int)
  | loggedUpdate
  | exited (status : Nat)
deriving DecidableEq, Repr

/-- Lines 38-44, `err`: print the failed command's exit code and stderr,
log, and `sys.exit(1)`. -/
def err (e : ProcError) : List ExecEvent :=
  [.reportedFailure e.exit_code, .exited 1]

/-- Lines 151-169: run `docker compose pull`; on failure hand off to `err`
(which exits 1), otherwise run `docker compose up -d`; on failure hand off
to `err`, otherwise log the update and exit 0. The environment's outcome of
each command is `none` for success or `some e` for failure. -/
def runExecutor (pullRes upRes : Option ProcError) : List ExecEvent :=
  ExecEvent.ranPull ::
    match pullRes with
    | some e => err e
    | none =>
      ExecEvent.ranUp ::
        match upRes with
        | some e => err e
        | none => [.loggedUpdate, .exited 0]

/-- The script after the decision logic: every skip verdict is an immediate
`sys.exit(0)` at its check; only `Proceed` reaches the docker commands. -/
def scriptAfterDecision (v : Verdict) (pullRes upRes : Option ProcError) :
    List ExecEvent :=
  match v with
  | .Proceed => runExecutor pullRes upRes
  | _ => [.exited 0]

/-! ### Helper lemmas about the decision pipeline -/

theorem decide_reaches_delay (curr latest : SemVersion) (notes : Option (List Char))
    (publishedAt : Option Int) (now delayDays : Int)
    (h1 : latest.major = curr.major)
    (h2 : ¬(latest.minor = curr.minor ∧ latest.patch = curr.patch))
    (h3 : ¬(latest.minor ≠ curr.minor ∧ notesHaveBreaking notes = true)) :
    decide curr latest notes publishedAt now delayDays =
      delayStep publishedAt now delayDays := by
  unfold decide
  rw [if_neg (by simp [h1]), if_neg h2, if_neg h3]

instance : DecidableEq (Except Err Verdict) := fun a b =>
  match a, b with
  | .ok x, .ok y =>
    if h : x = y then .isTrue (by rw [h]) else .isFalse (by simpa using h)
  | .error x, .error y =>
    if h : x = y then .isTrue (by rw [h]) else .isFalse (by simpa using h)
  | .ok _, .error _ => .isFalse (by simp)
  | .error _, .ok _ => .isFalse (by simp)

theorem delayStep_ne_breaking (publishedAt : Option Int) (now delayDays : Int) :
    delayStep publishedAt now delayDays ≠ .ok .SkipBreakingChange := by
  cases publishedAt with
  | none => simp [delayStep]
  | some pub =>
    simp only [delayStep]
    split <;> simp

theorem delayStep_ne_no_change (publishedAt : Option Int) (now delayDays : Int) :
    delayStep publishedAt now delayDays ≠ .ok .SkipNoChange := by
  cases publishedAt with
  | none => simp [delayStep]
  | some pub =>
    simp only [delayStep]
    split <;> simp

/-! ### C1 -/

/-- C1: for every pair of versions whose major components differ, `decide`
returns `SkipMajorChange`, whatever the notes, the publish timestamp (even
an invalid one), the current time and the delay policy; no later rule is
consulted. -/
theorem C1_major_change_always_skips (curr latest : SemVersion)
    (notes : Option (List Char)) (publishedAt : Option Int) (now delayDays : Int)
    (h : latest.major ≠ curr.major) :
    decide curr latest notes publishedAt now delayDays = .ok .SkipMajorChange := by
  unfold decide
  rw [if_pos h]

/-- Witness for C1 at current 1.118.0, latest 2.0.0, notes containing the
breaking-change marker and an invalid publish timestamp. -/
theorem C1_major_change_always_skips_witness :
    (SemVersion.mk 2 0 0).major ≠ (SemVersion.mk 1 118 0).major ∧
      decide ⟨1, 118, 0⟩ ⟨2, 0, 0⟩ (some marker) none 0 3 = .ok .SkipMajorChange :=
  ⟨by decide,
    C1_major_change_always_skips ⟨1, 118, 0⟩ ⟨2, 0, 0⟩ (some marker) none 0 3 (by decide)⟩

/-! ### C2 -/

/-- C2 counterexample: current 1.5.3, latest 1.5.2 — the latest release is
strictly older than the current version and shares its major component, yet
`decide` (here with no notes, a release published 10 days ago and a 3-day
delay) returns `Proceed`, not `SkipNoChange`: the claim that every
"latest older than current" case produces `SkipNoChange` is false. -/
theorem C2_counterexample :
    decide ⟨1, 5, 3⟩ ⟨1, 5, 2⟩ none (some 0) 864000 3 = .ok .Proceed ∧
      decide ⟨1, 5, 3⟩ ⟨1, 5, 2⟩ none (some 0) 864000 3 ≠ .ok .SkipNoChange := by
  constructor
  · decide
  · decide

/-- C2 amended: with equal major components, `decide` returns `SkipNoChange`
exactly when minor and patch are also both equal (i.e. the versions are
identical); a strictly older latest release with the same major but a
different minor or patch is treated as a version change, not as no-change. -/
theorem C2_no_change_iff (curr latest : SemVersion) (notes : Option (List Char))
    (publishedAt : Option Int) (now delayDays : Int)
    (h : latest.major = curr.major) :
    decide curr latest notes publishedAt now delayDays = .ok .SkipNoChange ↔
      latest.minor = curr.minor ∧ latest.patch = curr.patch := by
  by_cases hmp : latest.minor = curr.minor ∧ latest.patch = curr.patch
  · unfold decide
    rw [if_neg (by simp [h]), if_pos hmp]
    simp [hmp]
  · constructor
    · intro hd
      exfalso
      by_cases hbr : latest.minor ≠ curr.minor ∧ notesHaveBreaking notes = true
      · unfold decide at hd
        rw [if_neg (by simp [h]), if_neg hmp, if_pos hbr] at hd
        simp at hd
      · rw [decide_reaches_delay curr latest notes publishedAt now delayDays h hmp hbr] at hd
        exact delayStep_ne_no_change publishedAt now delayDays hd
    · intro hc
      exact absurd hc hmp

/-- Witness for C2's amended statement at identical versions 1.118.0. -/
theorem C2_no_change_iff_witness :
    (SemVersion.mk 1 118 0).major = (SemVersion.mk 1 118 0).major ∧
      decide ⟨1, 118, 0⟩ ⟨1, 118, 0⟩ none none 0 3 = .ok .SkipNoChange :=
  ⟨rfl, (C2_no_change_iff ⟨1, 118, 0⟩ ⟨1, 118, 0⟩ none none 0 3 rfl).mpr ⟨rfl, rfl⟩⟩

/-! ### C3 -/

/-- C3: with equal major and differing minor components, the release notes
are scanned line by line (`notesHaveBreaking` is `splitlines` followed by a
per-line case-insensitive search for the marker): when some line carries the
marker, `decide` returns `SkipBreakingChange`; when the notes are absent the
scan yields `false` rather than an error, and whenever the scan yields
`false` evaluation proceeds to the delay check. -/
theorem C3_minor_change_scans_notes (curr latest : SemVersion)
    (notes : Option (List Char)) (publishedAt : Option Int) (now delayDays : Int)
    (h1 : latest.major = curr.major) (h2 : latest.minor ≠ curr.minor) :
    (notesHaveBreaking notes = true →
        decide curr latest notes publishedAt now delayDays = .ok .SkipBreakingChange) ∧
      (notesHaveBreaking notes = false →
        decide curr latest notes publishedAt now delayDays =
          delayStep publishedAt now delayDays) ∧
      notesHaveBreaking none = false := by
  refine ⟨?_, ?_, rfl⟩
  · intro hbr
    unfold decide
    rw [if_neg (by simp [h1]), if_neg (fun hmp => h2 hmp.1), if_pos ⟨h2, hbr⟩]
  · intro hbr
    exact decide_reaches_delay curr latest notes publishedAt now delayDays h1
      (fun hmp => h2 hmp.1) (fun hc => by rw [hbr] at hc; exact Bool.noConfusion hc.2)

/-- Witness for C3 at current 1.118.0, latest 1.119.0 with the notes of
end-to-end scenario C (marker in upper case on the second line): the scan
fires and the verdict is `SkipBreakingChange`. -/
theorem C3_minor_change_scans_notes_witness :
    (SemVersion.mk 1 119 0).major = (SemVersion.mk 1 118 0).major ∧
      (SemVersion.mk 1 119 0).minor ≠ (SemVersion.mk 1 118 0).minor ∧
      notesHaveBreaking
          (some "- improved search\n- BREAKING CHANGE: config key renamed".data) = true ∧
      decide ⟨1, 118, 0⟩ ⟨1, 119, 0⟩
          (some "- improved search\n- BREAKING CHANGE: config key renamed".data)
          (some 0) 864000 3 = .ok .SkipBreakingChange :=
  ⟨rfl, by decide, by decide,
    (C3_minor_change_scans_notes ⟨1, 118, 0⟩ ⟨1, 119, 0⟩
        (some "- improved search\n- BREAKING CHANGE: config key renamed".data)
        (some 0) 864000 3 rfl (by decide)).1 (by decide)⟩

/-! ### C4 -/

/-- C4: with equal major and minor components and differing patch
components, the notes scan is skipped entirely — `decide` goes straight to
the delay step and in particular never returns `SkipBreakingChange`, even
when the notes contain the marker. -/
theorem C4_patch_only_never_breaking (curr latest : SemVersion)
    (notes : Option (List Char)) (publishedAt : Option Int) (now delayDays : Int)
    (h1 : latest.major = curr.major) (h2 : latest.minor = curr.minor)
    (h3 : latest.patch ≠ curr.patch) :
    decide curr latest notes publishedAt now delayDays =
        delayStep publishedAt now delayDays ∧
      decide curr latest notes publishedAt now delayDays ≠ .ok .SkipBreakingChange := by
  have hreach := decide_reaches_delay curr latest notes publishedAt now delayDays h1
    (fun hmp => h3 hmp.2) (fun hc => hc.1 h2)
  exact ⟨hreach, by rw [hreach]; exact delayStep_ne_breaking publishedAt now delayDays⟩

/-- Witness for C4 at current 1.118.0, latest 1.118.1, with notes that do
contain the marker: the verdict is the delay step's, not
`SkipBreakingChange`. -/
theorem C4_patch_only_never_breaking_witness :
    (SemVersion.mk 1 118 1).major = (SemVersion.mk 1 118 0).major ∧
      (SemVersion.mk 1 118 1).minor = (SemVersion.mk 1 118 0).minor ∧
      (SemVersion.mk 1 118 1).patch ≠ (SemVersion.mk 1 118 0).patch ∧
      decide ⟨1, 118, 0⟩ ⟨1, 118, 1⟩ (some marker) (some 0) 864000 3 ≠
        .ok .SkipBreakingChange :=
  ⟨rfl, rfl, by decide,
    (C4_patch_only_never_breaking ⟨1, 118, 0⟩ ⟨1, 118, 1⟩ (some marker)
        (some 0) 864000 3 rfl rfl (by decide)).2⟩

/-! ### C5 -/

/-- C5: for inputs that reach the delay rule (equal major, a version change,
no breaking-change skip), with the elapsed days `daysSince` computed as the
floor whole-day difference of the two UTC instants (so 23h59m elapsed is 0
days), `decide` returns `SkipDelayNotElapsed` iff fewer than `delayDays`
whole days elapsed and `Proceed` iff at least `delayDays` elapsed. -/
theorem C5_delay_rule (curr latest : SemVersion) (notes : Option (List Char))
    (pub now delayDays : Int)
    (h1 : latest.major = curr.major)
    (h2 : ¬(latest.minor = curr.minor ∧ latest.patch = curr.patch))
    (h3 : ¬(latest.minor ≠ curr.minor ∧ notesHaveBreaking notes = true)) :
    (decide curr latest notes (some pub) now delayDays = .ok .SkipDelayNotElapsed ↔
        daysSince now pub < delayDays) ∧
      (decide curr latest notes (some pub) now delayDays = .ok .Proceed ↔
        delayDays ≤ daysSince now pub) ∧
      daysSince (23 * 3600 + 59 * 60) 0 = 0 := by
  rw [decide_reaches_delay curr latest notes (some pub) now delayDays h1 h2 h3]
  simp only [delayStep]
  refine ⟨?_, ?_, by decide⟩
  · by_cases hlt : daysSince now pub < delayDays
    · simp [hlt]
    · simp [hlt]
  · by_cases hlt : daysSince now pub < delayDays
    · simp [hlt]
    · simp [hlt]
      omega

/-- Witness for C5: end-to-end scenario D — current 1.118.0, latest 1.119.0,
notes without the marker, published 1 day before now, 3-day delay — defers
with `SkipDelayNotElapsed`. -/
theorem C5_delay_rule_witness :
    (SemVersion.mk 1 119 0).major = (SemVersion.mk 1 118 0).major ∧
      ¬((SemVersion.mk 1 119 0).minor = (SemVersion.mk 1 118 0).minor ∧
        (SemVersion.mk 1 119 0).patch = (SemVersion.mk 1 118 0).patch) ∧
      daysSince 86400 0 < 3 ∧
      decide ⟨1, 118, 0⟩ ⟨1, 119, 0⟩ (some "- improved search".data)
        (some 0) 86400 3 = .ok .SkipDelayNotElapsed :=
  ⟨rfl, by decide, by decide,
    (C5_delay_rule ⟨1, 118, 0⟩ ⟨1, 119, 0⟩ (some "- improved search".data)
        0 86400 3 rfl (by decide) (by decide)).1.mpr (by decide)⟩

/-! ### C7 -/

/-- C7 counterexample: with an invalid publish timestamp but differing major
components, `decide` returns the `SkipMajorChange` verdict instead of
failing — so an invalid timestamp does not make `decide` fail "whatever the
two versions are". -/
theorem C7_counterexample :
    decide ⟨1, 0, 0⟩ ⟨2, 0, 0⟩ none none 0 3 = .ok .SkipMajorChange ∧
      decide ⟨1, 0, 0⟩ ⟨2, 0, 0⟩ none none 0 3 ≠ .error .TimeParseError := by
  constructor
  · decide
  · decide

/-- C7 amended: an invalid `publishedAt` makes `decide` fail with
`TimeParseError` exactly when evaluation reaches the delay rule — equal
major components, not a no-change pair, and no breaking-change skip; in
every other case a skip verdict is returned without consulting the
timestamp. -/
theorem C7_time_parse_error_iff (curr latest : SemVersion)
    (notes : Option (List Char)) (now delayDays : Int) :
    decide curr latest notes none now delayDays = .error .TimeParseError ↔
      (latest.major = curr.major ∧
        ¬(latest.minor = curr.minor ∧ latest.patch = curr.patch) ∧
        ¬(latest.minor ≠ curr.minor ∧ notesHaveBreaking notes = true)) := by
  by_cases h1 : latest.major ≠ curr.major
  · unfold decide
    rw [if_pos h1]
    simp [h1]
  · push_neg at h1
    by_cases h2 : latest.minor = curr.minor ∧ latest.patch = curr.patch
    · unfold decide
      rw [if_neg (by simp [h1]), if_pos h2]
      simp [h2]
    · by_cases h3 : latest.minor ≠ curr.minor ∧ notesHaveBreaking notes = true
      · unfold decide
        rw [if_neg (by simp [h1]), if_neg h2, if_pos h3]
        simp [h2, h3]
      · rw [decide_reaches_delay curr latest notes none now delayDays h1 h2 h3]
        simp [delayStep, h1, h2, h3]

/-! ### C10 -/

/-- C10: for inputs that reach the delay rule whose publish instant lies
strictly in the future of `now`, the floor whole-day difference is negative,
hence below any non-negative `delayDays`, and `decide` defers with
`SkipDelayNotElapsed`. -/
theorem C10_future_release_deferred (curr latest : SemVersion)
    (notes : Option (List Char)) (pub now delayDays : Int)
    (h1 : latest.major = curr.major)
    (h2 : ¬(latest.minor = curr.minor ∧ latest.patch = curr.patch))
    (h3 : ¬(latest.minor ≠ curr.minor ∧ notesHaveBreaking notes = true))
    (hfut : now < pub) (hd : 0 ≤ delayDays) :
    decide curr latest notes (some pub) now delayDays = .ok .SkipDelayNotElapsed := by
  rw [decide_reaches_delay curr latest notes (some pub) now delayDays h1 h2 h3]
  simp only [delayStep]
  rw [if_pos]
  unfold daysSince
  rw [Int.fdiv_eq_ediv _ (by norm_num)]
  omega

/-- Witness for C10: latest 1.119.0 published 1 hour in the future of now —
the verdict is `SkipDelayNotElapsed` even with a 0-day delay policy. -/
theorem C10_future_release_deferred_witness :
    (SemVersion.mk 1 119 0).major = (SemVersion.mk 1 118 0).major ∧
      (0 : Int) < 3600 ∧ (0 : Int) ≤ 0 ∧
      decide ⟨1, 118, 0⟩ ⟨1, 119, 0⟩ none (some 3600) 0 0 = .ok .SkipDelayNotElapsed :=
  ⟨rfl, by decide, by decide,
    C10_future_release_deferred ⟨1, 118, 0⟩ ⟨1, 119, 0⟩ none 3600 0 0 rfl
      (by decide) (by decide) (by decide) (by decide)⟩

/-! ### C6 -/

/-- C6 counterexample: on `"vv3.4.5"` the script's parser (`lstrip('v')`)
removes both leading characters and yields 3.4.5, while a parser that strips
exactly one leading non-digit character (the claim's description, modelled
by `parseTagSpec`) is left with `"v3"` as first component and fails — the
release-tag parser does not strip exactly one leading non-digit character. -/
theorem C6_counterexample :
    parseTag "vv3.4.5".data = some ⟨3, 4, 5⟩ ∧
      parseTagSpec "vv3.4.5".data = none := by
  constructor
  · decide
  · decide

/-- C6 amended: the release-tag parser strips every leading `'v'` character
(and only `'v'`: a different non-digit prefix is not stripped and fails the
numeric conversion) before splitting on `'.'`, and fails whenever the split
yields fewer than three components; parsing `"v3.4.5"` and `"3.4.5"` both
yield 3.4.5. -/
theorem C6_parse_tag_amended :
    (∀ s : List Char, parseTag ('v' :: s) = parseTag s) ∧
      parseTag "v3.4.5".data = some ⟨3, 4, 5⟩ ∧
      parseTag "3.4.5".data = some ⟨3, 4, 5⟩ ∧
      parseTag "vv3.4.5".data = some ⟨3, 4, 5⟩ ∧
      parseTag "V3.4.5".data = none ∧
      (∀ s : List Char, (splitDots (lstripV s)).length < 3 → parseTag s = none) := by
  refine ⟨?_, by decide, by decide, by decide, by decide, ?_⟩
  · intro s
    have hstrip : lstripV ('v' :: s) = lstripV s := by
      simp [lstripV, List.dropWhile_cons]
    unfold parseTag
    rw [hstrip]
  · intro s hlen
    unfold parseTag
    match hsplit : splitDots (lstripV s) with
    | [] => rfl
    | [_] => rfl
    | [_, _] => rfl
    | _ :: _ :: _ :: _ =>
      rw [hsplit] at hlen
      simp at hlen
      omega

/-- Witness for C6's amended statement: `"3.4"` splits into two components
and the parser fails. -/
theorem C6_parse_tag_amended_witness :
    (splitDots (lstripV "3.4".data)).length < 3 ∧ parseTag "3.4".data = none :=
  ⟨by decide, C6_parse_tag_amended.2.2.2.2.2 "3.4".data (by decide)⟩

/-! ### C9 -/

/-- C9: every skip verdict exits 0 without touching docker; on `Proceed`
the script runs pull first, and runs up exactly when pull succeeded: a pull
failure is reported and exits 1 with up never attempted, an up failure is
reported and exits 1, and full success logs the update and exits 0 — no
retry, no rollback, each operation at most once in the trace. -/
theorem C9_executor_trace (v : Verdict) (pullRes upRes : Option ProcError) :
    (v ≠ .Proceed → scriptAfterDecision v pullRes upRes = [.exited 0]) ∧
      (∀ e, pullRes = some e →
        scriptAfterDecision .Proceed pullRes upRes =
          [.ranPull, .reportedFailure e.exit_code, .exited 1]) ∧
      (∀ e, pullRes = none → upRes = some e →
        scriptAfterDecision .Proceed pullRes upRes =
          [.ranPull, .ranUp, .reportedFailure e.exit_code, .exited 1]) ∧
      (pullRes = none → upRes = none →
        scriptAfterDecision .Proceed pullRes upRes =
          [.ranPull, .ranUp, .loggedUpdate, .exited 0]) := by
  refine ⟨?_, ?_, ?_, ?_⟩
  · intro hv
    cases v with
    | Proceed => exact absurd rfl hv
    | SkipMajorChange => rfl
    | SkipNoChange => rfl
    | SkipBreakingChange => rfl
    | SkipDelayNotElapsed => rfl
  · intro e he
    subst he
    rfl
  · intro e hp hu
    subst hp; subst hu
    rfl
  · intro hp hu
    subst hp; subst hu
    rfl

/-- Witness for C9, one concrete trace per branch: a skip verdict, a failed
pull, a failed up after a successful pull, and full success. -/
theorem C9_executor_trace_witness :
    (Verdict.SkipNoChange ≠ Verdict.Proceed ∧
        scriptAfterDecision .SkipNoChange none none = [.exited 0]) ∧
      scriptAfterDecision .Proceed (some ⟨18, []⟩) none =
        [.ranPull, .reportedFailure 18, .exited 1] ∧
      scriptAfterDecision .Proceed none (some ⟨125, []⟩) =
        [.ranPull, .ranUp, .reportedFailure 125, .exited 1] ∧
      scriptAfterDecision .Proceed none none =
        [.ranPull, .ranUp, .loggedUpdate, .exited 0] :=
  ⟨⟨by decide, (C9_executor_trace .SkipNoChange none none).1 (by decide)⟩,
    (C9_executor_trace .Proceed (some ⟨18, []⟩) none).2.1 ⟨18, []⟩ rfl,
    (C9_executor_trace .Proceed none (some ⟨125, []⟩)).2.2.1 ⟨125, []⟩ rfl rfl,
    (C9_executor_trace .Proceed none none).2.2.2 rfl rfl⟩

/-! ### C8: line-by-line scanning is equivalent to whole-text search

The marker is non-empty and contains no line-break character, so an
occurrence of the (lowercased) marker can never straddle a line boundary. -/

theorem marker_ne_nil : marker ≠ [] := by decide

theorem marker_no_break : ∀ a ∈ marker, isLineBreak a = false := by decide

theorem toLower_of_break {c : Char} (h : isLineBreak c = true) : c.toLower = c := by
  simp only [isLineBreak, Bool.or_eq_true, decide_eq_true_eq] at h
  rcases h with ((((((((h | h) | h) | h) | h) | h) | h) | h) | h) | h <;>
    subst h <;> decide

theorem ne_of_break_of_not_break {a c : Char} (ha : isLineBreak a = false)
    (hc : isLineBreak c = true) : a ≠ c := by
  intro h
  subst h
  rw [hc] at ha
  exact Bool.noConfusion ha

theorem isPre_cons_of_break {m : List Char} (hm : ∀ a ∈ m, isLineBreak a = false)
    (hne : m ≠ []) {c : Char} (hc : isLineBreak c = true) (s : List Char) :
    isPre m (c :: s) = false := by
  cases m with
  | nil => exact absurd rfl hne
  | cons a m' =>
    have ha : a ≠ c :=
      ne_of_break_of_not_break (hm a (List.mem_cons_self a m')) hc
    simp [isPre, ha]

theorem splitlines_eq_nil {s : List Char} (h : splitlines s = []) : s = [] := by
  cases s with
  | nil => rfl
  | cons c cs =>
    exfalso
    unfold splitlines at h
    by_cases hb : isLineBreak c
    · rw [if_pos hb] at h
      exact List.noConfusion h
    · rw [if_neg hb] at h
      cases hsc : splitlines cs with
      | nil => rw [hsc] at h; exact List.noConfusion h
      | cons l ls => rw [hsc] at h; exact List.noConfusion h

theorem hasSubstr_cons (m : List Char) (b : Char) (s : List Char) :
    hasSubstr m (b :: s) = (isPre m (b :: s) || hasSubstr m s) := rfl

theorem splitlines_cons_break (c : Char) (cs : List Char)
    (hb : isLineBreak c = true) (hr : c ≠ '\r') :
    splitlines (c :: cs) = [] :: splitlines cs := by
  cases cs with
  | nil => simp [splitlines, hb, hr]
  | cons d ds => simp [splitlines, hb, hr]

theorem splitlines_cons_nonbreak (c : Char) (cs : List Char)
    (hb : isLineBreak c = false) :
    splitlines (c :: cs) =
      (match splitlines cs with
       | [] => [[c]]
       | l :: ls => (c :: l) :: ls) := by
  cases cs with
  | nil => simp [splitlines, hb]
  | cons d ds => simp [splitlines, hb]

theorem splitlines_cons_break_head (c : Char) (cs : List Char)
    (hb : isLineBreak c = true) :
    ∃ rest : List (List Char), splitlines (c :: cs) = [] :: rest := by
  by_cases hr : c = '\r'
  · subst hr
    cases cs with
    | nil => exact ⟨[], by simp [splitlines, isLineBreak]⟩
    | cons d ds =>
      by_cases hd : d = '\n'
      · subst hd
        exact ⟨splitlines ds, by simp [splitlines, isLineBreak]⟩
      · exact ⟨splitlines (d :: ds), by simp [splitlines, isLineBreak, hd]⟩
  · exact ⟨splitlines cs, splitlines_cons_break c cs hb hr⟩

/-- A break-free pattern is an initial segment of the lowercased first line
of `cs` exactly when it is one of the lowercased `cs` itself: the first line
is the longest break-free initial segment. -/
theorem isPre_lower_firstLine :
    ∀ (cs m : List Char), (∀ a ∈ m, isLineBreak a = false) →
      ∀ (l : List Char) (ls : List (List Char)), splitlines cs = l :: ls →
        isPre m (lower l) = isPre m (lower cs) := by
  intro cs
  induction cs with
  | nil =>
    intro m hm l ls h
    exact absurd h (by simp [splitlines])
  | cons d ds ih =>
    intro m hm l ls h
    by_cases hb : isLineBreak d
    · have hl : l = [] := by
        obtain ⟨rest, he⟩ := splitlines_cons_break_head d ds hb
        rw [he] at h
        exact (List.cons.inj h).1.symm
      subst hl
      cases m with
      | nil => rfl
      | cons a m' =>
        have ha : a ≠ Char.toLower d := by
          rw [toLower_of_break hb]
          exact ne_of_break_of_not_break (hm a (List.mem_cons_self a m')) hb
        simp [lower, isPre, ha]
    · have hbf : isLineBreak d = false := by simpa using hb
      cases hds : splitlines ds with
      | nil =>
        have hdse : ds = [] := splitlines_eq_nil hds
        subst hdse
        have he : splitlines [d] = [[d]] := by
          rw [splitlines_cons_nonbreak d [] hbf]
          rfl
        rw [he] at h
        have hl : l = [d] := (List.cons.inj h).1.symm
        subst hl
        rfl
      | cons t ts =>
        have he : splitlines (d :: ds) = (d :: t) :: ts := by
          rw [splitlines_cons_nonbreak d ds hbf, hds]
        rw [he] at h
        have hl : l = d :: t := (List.cons.inj h).1.symm
        subst hl
        cases m with
        | nil => rfl
        | cons a m' =>
          simp only [lower, List.map_cons, isPre]
          have hrec := ih m'
            (fun x hx => hm x (List.mem_cons_of_mem a hx)) t ts hds
          simp only [lower] at hrec
          rw [hrec]

theorem isPre_lower_cons_firstLine (m : List Char)
    (hm : ∀ a ∈ m, isLineBreak a = false) (c : Char) (cs l : List Char)
    (ls : List (List Char)) (h : splitlines cs = l :: ls) :
    isPre m (lower (c :: l)) = isPre m (lower (c :: cs)) := by
  cases m with
  | nil => rfl
  | cons a m' =>
    simp only [lower, List.map_cons, isPre]
    have hrec := isPre_lower_firstLine cs m'
      (fun x hx => hm x (List.mem_cons_of_mem a hx)) l ls h
    simp only [lower] at hrec
    rw [hrec]

theorem whole_cons_break {c : Char} (hb : isLineBreak c = true) (s : List Char) :
    wholeTextHasMarker (c :: s) = wholeTextHasMarker s := by
  show hasSubstr marker (Char.toLower c :: lower s) = hasSubstr marker (lower s)
  rw [hasSubstr_cons, toLower_of_break hb,
    isPre_cons_of_break marker_no_break marker_ne_nil hb]
  simp

/-- The line-by-line scan of `splitlines` agrees with whole-text search for
the case-insensitive marker on every string. -/
theorem any_line_eq_whole : ∀ s : List Char,
    (splitlines s).any lineHasMarker = wholeTextHasMarker s := by
  intro s
  induction s with
  | nil => decide
  | cons c cs ih =>
    by_cases hb : isLineBreak c
    · rw [whole_cons_break hb]
      by_cases hr : c = '\r'
      · subst hr
        cases cs with
        | nil => decide
        | cons d ds =>
          by_cases hd : d = '\n'
          · subst hd
            have e1 : splitlines ('\r' :: '\n' :: ds) = [] :: splitlines ds := by
              simp [splitlines, isLineBreak]
            have e2 : splitlines ('\n' :: ds) = [] :: splitlines ds :=
              splitlines_cons_break '\n' ds (by decide) (by decide)
            have hnl : isLineBreak '\n' = true := by decide
            have ih' := ih
            rw [e2, List.any_cons, whole_cons_break hnl] at ih'
            simp only [show lineHasMarker [] = false from by decide,
              Bool.false_or] at ih'
            rw [e1, List.any_cons]
            simp only [show lineHasMarker [] = false from by decide, Bool.false_or]
            rw [whole_cons_break hnl]
            exact ih'
          · have e1 : splitlines ('\r' :: d :: ds) = [] :: splitlines (d :: ds) := by
              simp [splitlines, isLineBreak, hd]
            rw [e1, List.any_cons]
            simp only [show lineHasMarker [] = false from by decide, Bool.false_or]
            exact ih
      · have e1 : splitlines (c :: cs) = [] :: splitlines cs :=
          splitlines_cons_break c cs hb hr
        rw [e1, List.any_cons]
        simp only [show lineHasMarker [] = false from by decide, Bool.false_or]
        exact ih
    · have hbf : isLineBreak c = false := by simpa using hb
      cases hsc : splitlines cs with
      | nil =>
        have hcs : cs = [] := splitlines_eq_nil hsc
        subst hcs
        have e1 : splitlines [c] = [[c]] := by
          rw [splitlines_cons_nonbreak c [] hbf]
          rfl
        rw [e1, List.any_cons]
        simp only [List.any_nil, Bool.or_false]
        rfl
      | cons l ls =>
        have e1 : splitlines (c :: cs) = (c :: l) :: ls := by
          rw [splitlines_cons_nonbreak c cs hbf, hsc]
        rw [e1, List.any_cons]
        have hkey : lineHasMarker (c :: l) =
            (isPre marker (lower (c :: cs)) || lineHasMarker l) := by
          show hasSubstr marker (Char.toLower c :: lower l) = _
          rw [hasSubstr_cons,
            show (Char.toLower c :: lower l) = lower (c :: l) from rfl,
            isPre_lower_cons_firstLine marker marker_no_break c cs l ls hsc]
          rfl
        rw [hkey, Bool.or_assoc,
          show (lineHasMarker l || ls.any lineHasMarker) =
            (splitlines cs).any lineHasMarker from by rw [hsc, List.any_cons],
          ih]
        show _ = hasSubstr marker (Char.toLower c :: lower cs)
        rw [hasSubstr_cons]
        rfl

/-- C8: the script's line-by-line breaking-change scan is functionally
equivalent to a whole-text search — for every notes string, some line of
`splitlines` contains the case-insensitive marker iff the whole text
contains it. -/
theorem C8_line_scan_equiv_whole_text (notesBody : List Char) :
    notesHaveBreaking (some notesBody) = wholeTextHasMarker notesBody :=
  any_line_eq_whole notesBody

end ImmichUpdater
